import Mathlib

/-!
# Verification of the weave language front end

Shallow embedding of the repository's tokenizer (`src/lexer.rs`), AST model
(`src/node.rs`), parser (`src/parser.rs`) and expression evaluator
(`src/interpreter.rs`), with theorems settling the frozen claims about them.

Conventions of the embedding:
* The source stream is a `List Char`; the Rust lexer reads single bytes and
  casts them to `char`, so every character seen is a scalar below 256.
* Rust `i32` payloads are embedded as `Int`; no claim below exercises 32-bit
  overflow, which is therefore not modelled.
* Rust `f64` payloads are embedded as `Rat`; no claim below exercises
  IEEE-754 rounding, `NaN`, or infinities, and the only float-relevant fact
  proved is that the lexer's float branch is unreachable.
* A Rust `panic!` (including the implicit panic of integer division by zero)
  is a distinct outcome constructor, separate from `Result::Err` values.
* Imperative `loop`s are rendered as structural recursion (an explicit fuel
  counter where the recursion is not structural on the input).
-/

/-- `lexer.rs` `Position`: a line/column pair (`u32` fields embedded as `Nat`). -/
structure Position where
  line : Nat
  col : Nat
deriving DecidableEq, Repr

/-- `lexer.rs` `Op`: binary/unary operator tokens. -/
inductive Op where
  | Plus | Exp | Minus | Multiply | Divide
  | Eq | Neq | Leq | Geq | Lt | Gt | And | Or | Not
deriving DecidableEq, Repr

/-- `lexer.rs` `Aop`: compound-assignment operator tokens. -/
inductive Aop where
  | Plus | Exp | Minus | Multiply | Divide
deriving DecidableEq, Repr

/-- `lexer.rs` `Token`. `FloatLit(f64)` is embedded carrying the raw numeric
text instead of a parsed `f64`: the `parse::<f64>` call is not modelled
(floating point is out of scope) and the float branch of `scan_number` is
proved unreachable below. -/
inductive Token where
  | IntLit (n : Int)
  | FloatLit (raw : String)
  | CharLit (c : Char)
  | StrLit (s : String)
  | LParen | RParen | LBracket | RBracket | LBrace | RBrace
  | Dot | Comma | Declare | Assign
  | AssignOp (op : Aop)
  | Operator (op : Op)
  | Iden (s : String)
  | True | False
  | Fn | Struct | Type | Return | Break | Continue | While | For | In | Import
  | SemiColon | Arrow
deriving DecidableEq, Repr

/-- `lexer.rs` `TokenContext`: a token with its left/right source positions. -/
structure TokenContext where
  kind : Token
  lpos : Position
  rpos : Position
deriving DecidableEq, Repr

/-- `Token::to_text` (`lexer.rs`), used by parser error messages. -/
def Token.toText : Token → String
  | .IntLit _ => "<int>"
  | .FloatLit _ => "<float>"
  | .CharLit _ => "<char>"
  | .StrLit _ => "<string>"
  | .LParen => "\x27:\x27"
  | .RParen => "\x27)\x27"
  | .LBracket => "\x27[\x27"
  | .RBracket => "\x27]\x27"
  | .LBrace => "\x27\x7b\x27"
  | .RBrace => "\x27\x7d\x27"
  | .Dot => "\x27.\x27"
  | .Comma => "\x27,\x27"
  | .Declare => "\x27:=\x27"
  | .Assign => "\x27=\x27"
  | .AssignOp _ => "<assignop>"
  | .Operator _ => "<operator>"
  | .Iden _ => "<iden>"
  | .True => "true"
  | .False => "false"
  | .Fn => "fn"
  | .Struct => "struct"
  | .Type => "type"
  | .Return => "return"
  | .Break => "break"
  | .Continue => "continue"
  | .While => "while"
  | .For => "for"
  | .In => "in"
  | .Import => "import"
  | .SemiColon => "\x27;\x27"
  | .Arrow => "\x27->\x27"

/-- `Display for Position` (`lexer.rs`): `line: {}, col: {}`. -/
def Position.display (p : Position) : String :=
  "line: " ++ Nat.repr p.line ++ ", col: " ++ Nat.repr p.col

/-- `Display for TokenContext` (`lexer.rs`): `{} between {} and {}`. -/
def TokenContext.display (t : TokenContext) : String :=
  t.kind.toText ++ " between " ++ t.lpos.display ++ " and " ++ t.rpos.display

/-- Rust `char::is_whitespace` restricted to scalar values below 256 (the
only characters a byte-reading lexer can produce): the Unicode `White_Space`
code points in that range are U+0009..U+000D, U+0020, U+0085, U+00A0. -/
def rustIsWhitespace (c : Char) : Bool :=
  (9 ≤ c.toNat && c.toNat ≤ 13) || c = ' ' || c.toNat = 0x85 || c.toNat = 0xA0

/-- Rust `char::is_alphanumeric` restricted to scalar values below 256:
ASCII digits and letters plus the Latin-1 alphabetic/numeric code points. -/
def rustIsAlphanumeric (c : Char) : Bool :=
  (48 ≤ c.toNat && c.toNat ≤ 57) ||
  (65 ≤ c.toNat && c.toNat ≤ 90) ||
  (97 ≤ c.toNat && c.toNat ≤ 122) ||
  c.toNat = 170 || c.toNat = 178 || c.toNat = 179 || c.toNat = 181 ||
  c.toNat = 185 || c.toNat = 186 || c.toNat = 188 || c.toNat = 189 ||
  c.toNat = 190 ||
  (192 ≤ c.toNat && c.toNat ≤ 214) ||
  (216 ≤ c.toNat && c.toNat ≤ 246) ||
  (248 ≤ c.toNat && c.toNat ≤ 255)

/-- Rust `char::is_digit(10)`. -/
def rustIsDigit (c : Char) : Bool :=
  48 ≤ c.toNat && c.toNat ≤ 57

/-- `Lexer::is_control` (`lexer.rs`): membership in `[](){},.;`. -/
def isControl (c : Char) : Bool :=
  c = '[' || c = ']' || c = '(' || c = ')' || c = '\x7b' || c = '\x7d' ||
  c = ',' || c = '.' || c = ';'

/-- The position update performed by `Lexer::read` (`lexer.rs` lines
148-166): a newline increments the line counter (the column is *not*
reset), any other character increments the column counter. -/
def advancePos (pos : Position) (c : Char) : Position :=
  if c = '\n' then ⟨pos.line + 1, pos.col⟩ else ⟨pos.line, pos.col + 1⟩

/-- The lexer state: the remaining input and the current position.
(`Lexer::new` starts at line 0, col 0.) -/
structure LexState where
  input : List Char
  pos : Position
deriving DecidableEq, Repr

/-- `Lexer::read`: consume one character, updating the position. -/
def lexRead (s : LexState) : Option Char × LexState :=
  match s.input with
  | [] => (none, s)
  | c :: rest => (some c, ⟨rest, advancePos s.pos c⟩)

/-- The loop of `Lexer::skip_spaces`: `peek`/`consume` only, so the
position fields are untouched (`consume` does not go through `read`). -/
def skipSpacesList : List Char → List Char
  | [] => []
  | c :: rest => if rustIsWhitespace c then skipSpacesList rest else c :: rest

/-- `Lexer::skip_spaces` on the lexer state (position unchanged). -/
def skipSpaces (s : LexState) : LexState :=
  ⟨skipSpacesList s.input, s.pos⟩

/-- `Lexer::match_escseq` (`lexer.rs`): the escape table, with the arm order
of the source (`\\`, `n`, `t`, `r`, `0`, then the terminator itself). -/
def matchEscseq (c term : Char) : Except String Char :=
  if c = '\\' then .ok '\\'
  else if c = 'n' then .ok '\n'
  else if c = 't' then .ok '\t'
  else if c = 'r' then .ok '\r'
  else if c = '0' then .ok (Char.ofNat 0)
  else if c = term then .ok term
  else .error ("Invalid esc seq: \x27\\" ++ String.singleton c ++ "\x27")

/-- `Lexer::match_control` (`lexer.rs`): single-character punctuation. -/
def matchControl (c : Char) : Option Token :=
  if c = '[' then some .LBracket
  else if c = ']' then some .RBracket
  else if c = '(' then some .LParen
  else if c = ')' then some .RParen
  else if c = '\x7b' then some .LBrace
  else if c = '\x7d' then some .RBrace
  else if c = ',' then some .Comma
  else if c = '.' then some .Dot
  else if c = ';' then some .SemiColon
  else none

/-- The loop of `Lexer::scan_text`: characters are consumed through `read`
(so the position advances), accumulating until the unescaped terminator.
Reaching end of input without the terminator returns the accumulated text. -/
def scanTextLoop (term : Char) :
    List Char → Position → Bool → String → Except String (String × List Char × Position)
  | [], pos, _, acc => .ok (acc, [], pos)
  | c :: rest, pos, isesc, acc =>
    let pos' := advancePos pos c
    if isesc then
      match matchEscseq c term with
      | .error e => .error e
      | .ok c' => scanTextLoop term rest pos' false (acc.push c')
    else if c = '\\' then scanTextLoop term rest pos' true acc
    else if c = term then .ok (acc, rest, pos')
    else scanTextLoop term rest pos' false (acc.push c)

/-- `Lexer::scan_text`: returns the text with its left/right positions. -/
def scanText (term : Char) (s : LexState) :
    Except String (String × Position × Position × LexState) :=
  match scanTextLoop term s.input s.pos false "" with
  | .error e => .error e
  | .ok (str, rest, pos') => .ok (str, s.pos, pos', ⟨rest, pos'⟩)

/-- `Lexer::scan_char`: a char literal must hold exactly one scalar
(`str.len()` in Rust is the UTF-8 byte length). -/
def scanChar (s : LexState) : Except String (TokenContext × LexState) :=
  match scanText (Char.ofNat 39) s with
  | .error e => .error e
  | .ok (str, lpos, rpos, s') =>
    match str.data.head?, str.utf8ByteSize with
    | some c, 1 => .ok (⟨.CharLit c, lpos, rpos⟩, s')
    | _, _ => .error ("Invalid char: \x27" ++ str ++
        "\x27 a char literal length 1 between " ++ lpos.display ++ " and " ++ rpos.display)

/-- `Lexer::scan_string`. -/
def scanString (s : LexState) : Except String (TokenContext × LexState) :=
  match scanText '"' s with
  | .error e => .error e
  | .ok (str, lpos, rpos, s') => .ok (⟨.StrLit str, lpos, rpos⟩, s')

/-- Rust `str::parse::<i32>`: an optional sign, then one or more ASCII
digits, rejected on overflow of the `i32` range. -/
def parseI32 (s : String) : Option Int :=
  match s.data with
  | [] => none
  | c :: rest =>
    let signDigits : Int × List Char :=
      if c = '+' then (1, rest) else if c = '-' then (-1, rest) else (1, s.data)
    match signDigits with
    | (sign, digits) =>
      if digits = [] then none
      else if digits.all rustIsDigit then
        let v : Int := sign * (digits.foldl (fun a d => a * 10 + (d.toNat - 48)) 0 : Nat)
        if v < -2147483648 ∨ 2147483647 < v then none else some v
      else none

/-- The loop of `Lexer::scan_number` (`lexer.rs` lines 274-283): `peek` each
character, break when it is not alphanumeric — note `'.'` is *not*
alphanumeric, so the loop breaks before the `c == '.'` check can run — else
record a dot (dead code), push, `consume` (position untouched). -/
def scanNumLoop : List Char → String → Bool → String × Bool × List Char
  | [], acc, isInt => (acc, isInt, [])
  | c :: rest, acc, isInt =>
    if !rustIsAlphanumeric c then (acc, isInt, c :: rest)
    else scanNumLoop rest (acc.push c) (if c = '.' then false else isInt)

/-- `Lexer::scan_number`: scan the numeric text, then parse it as `i32` when
no dot was recorded, as `f64` otherwise (float parse unmodelled: the token
carries the raw text; this branch is proved unreachable below). Both
positions equal the position after the first character, since the loop's
`consume` calls do not move the position. -/
def scanNumber (c : Char) (s : LexState) : Except String (TokenContext × LexState) :=
  let lpos := s.pos
  match scanNumLoop s.input (String.singleton c) true with
  | (tokstr, isInt, rest) =>
    let rpos := s.pos
    if isInt then
      match parseI32 tokstr with
      | some n => .ok (⟨.IntLit n, lpos, rpos⟩, ⟨rest, s.pos⟩)
      | none => .error ("Invalid int: cannot lex " ++ tokstr ++ " between " ++
          lpos.display ++ " and " ++ rpos.display)
    else .ok (⟨.FloatLit tokstr, lpos, rpos⟩, ⟨rest, s.pos⟩)

/-- The loop of `Lexer::scan_keyword`: accumulate while the next character
is an underscore or alphanumeric (`peek`/`consume`, position untouched). -/
def scanKeywordLoop : List Char → String → String × List Char
  | [], acc => (acc, [])
  | c :: rest, acc =>
    if c ≠ '_' && !rustIsAlphanumeric c then (acc, c :: rest)
    else scanKeywordLoop rest (acc.push c)

/-- The keyword table of `Lexer::scan_keyword`. -/
def keywordToken (s : String) : Token :=
  if s = "fn" then .Fn
  else if s = "struct" then .Struct
  else if s = "type" then .Type
  else if s = "return" then .Return
  else if s = "break" then .Break
  else if s = "continue" then .Continue
  else if s = "while" then .While
  else if s = "for" then .For
  else if s = "in" then .In
  else if s = "true" then .True
  else if s = "false" then .False
  else if s = "import" then .Import
  else .Iden s

/-- `Lexer::scan_keyword` (never fails). -/
def scanKeyword (c : Char) (s : LexState) : TokenContext × LexState :=
  match scanKeywordLoop s.input (String.singleton c) with
  | (tokstr, rest) => (⟨keywordToken tokstr, s.pos, s.pos⟩, ⟨rest, s.pos⟩)

/-- The loop of `Lexer::scan_special`: accumulate symbol characters until
whitespace, an alphanumeric, or a control character (position untouched). -/
def scanSpecialLoop : List Char → String → String × List Char
  | [], acc => (acc, [])
  | c :: rest, acc =>
    if rustIsWhitespace c || rustIsAlphanumeric c || isControl c then (acc, c :: rest)
    else scanSpecialLoop rest (acc.push c)

/-- The operator table of `Lexer::scan_special`. -/
def specialToken (s : String) : Option Token :=
  if s = "*" then some (.Operator .Multiply)
  else if s = "**" then some (.Operator .Exp)
  else if s = "*=" then some (.AssignOp .Multiply)
  else if s = "**=" then some (.AssignOp .Exp)
  else if s = "-" then some (.Operator .Minus)
  else if s = "-=" then some (.AssignOp .Minus)
  else if s = "+" then some (.Operator .Plus)
  else if s = "+=" then some (.AssignOp .Plus)
  else if s = "/" then some (.Operator .Divide)
  else if s = "/=" then some (.AssignOp .Divide)
  else if s = ":=" then some .Declare
  else if s = "=" then some .Assign
  else if s = "==" then some (.Operator .Eq)
  else if s = "!=" then some (.Operator .Neq)
  else if s = "<=" then some (.Operator .Leq)
  else if s = "<" then some (.Operator .Lt)
  else if s = ">=" then some (.Operator .Geq)
  else if s = ">" then some (.Operator .Gt)
  else if s = "&&" then some (.Operator .And)
  else if s = "||" then some (.Operator .Or)
  else if s = "->" then some .Arrow
  else none

/-- `Lexer::scan_special`. -/
def scanSpecial (c : Char) (s : LexState) : Except String (TokenContext × LexState) :=
  match scanSpecialLoop s.input (String.singleton c) with
  | (tokstr, rest) =>
    match specialToken tokstr with
    | some kind => .ok (⟨kind, s.pos, s.pos⟩, ⟨rest, s.pos⟩)
    | none => .error ("Invalid token: \x27" ++ tokstr ++ "\x27 while scanning")

/-- `Lexer::read_token`: skip whitespace, read one character, and dispatch
exactly as the source does (control table, quote openers, digit, alphanumeric,
operator run). Returns `none` at end of input. -/
def readToken (s : LexState) : Except String (Option (TokenContext × LexState)) :=
  let s₀ := skipSpaces s
  match lexRead s₀ with
  | (none, _) => .ok none
  | (some c, s₁) =>
    match matchControl c with
    | some kind => .ok (some (⟨kind, s₁.pos, s₁.pos⟩, s₁))
    | none =>
      if c = Char.ofNat 39 then
        match scanChar s₁ with
        | .error e => .error e
        | .ok r => .ok (some r)
      else if c = '"' then
        match scanString s₁ with
        | .error e => .error e
        | .ok r => .ok (some r)
      else if rustIsDigit c then
        match scanNumber c s₁ with
        | .error e => .error e
        | .ok r => .ok (some r)
      else if rustIsAlphanumeric c then .ok (some (scanKeyword c s₁))
      else
        match scanSpecial c s₁ with
        | .error e => .error e
        | .ok r => .ok (some r)

/-- The loop of `Lexer::read_tokens`, with an explicit fuel counter (each
produced token consumes at least one input character, so
`input.length + 1` fuel always suffices). -/
def readTokensFuel : Nat → LexState → Except String (List TokenContext)
  | 0, _ => .error "out of fuel"
  | fuel + 1, s =>
    match readToken s with
    | .error e => .error e
    | .ok none => .ok []
    | .ok (some (t, s')) =>
      match readTokensFuel fuel s' with
      | .error e => .error e
      | .ok ts => .ok (t :: ts)

/-- `Lexer::read_tokens` from a given state. -/
def readTokens (s : LexState) : Except String (List TokenContext) :=
  readTokensFuel (s.input.length + 1) s

/-- `Lexer::new` + `read_tokens` on a source string (position starts 0,0). -/
def tokenize (src : String) : Except String (List TokenContext) :=
  readTokens ⟨src.data, ⟨0, 0⟩⟩

/-- The token kinds of a tokenizer run, for position-free comparisons. -/
def tokenKinds (src : String) : Except String (List Token) :=
  match tokenize src with
  | .error e => .error e
  | .ok ts => .ok (ts.map (·.kind))

/-- `node.rs` `TypeNode`: syntactic types. -/
inductive TypeNode where
  | Array (t : TypeNode)
  | Fn (args : List TypeNode) (ret : Option TypeNode)
  | Iden (s : String)

/-- `node.rs` `Const`: runtime constant values, in the source's variant
declaration order (`Int`, `Float`, `Bool`, `Char`, `String`). The
interpreter's imported `Constant` is identified with this type (the claims'
sources cite `node.rs` lines 121-128 for it). `i32` is embedded as `Int`
and `f64` as `Rat` (see the file header). -/
inductive Const where
  | Int (n : Int)
  | Float (q : Rat)
  | Bool (b : Bool)
  | Char (c : Char)
  | String (s : String)
deriving DecidableEq, Repr

/-- `node.rs` `Bop` (parser-level binary operators). -/
inductive Bop where
  | Plus | Exp | Minus | Multiply | Divide
  | Eq | Neq | Leq | Geq | Lt | Gt | And | Or
deriving DecidableEq, Repr

/-- `node.rs` `Uop` (parser-level unary operators). -/
inductive Uop where
  | Not | Minus
deriving DecidableEq, Repr

/-- `node.rs` `Node`: the declaration/statement/expression union. The
payload structs (`DefFuncNode`, `DefStructNode`, ...) are inlined as
constructor fields, since Lean structures cannot be mutually recursive with
the inductive; field order follows the source structs. -/
inductive Node where
  | DefFunc (iden : String) (args : List (String × TypeNode))
      (ret : Option TypeNode) (body : List Node)
  | DefStruct (iden : String) (fields : List (String × TypeNode))
  | DefTypeAlias (iden : String) (typeNode : TypeNode)
  | Import (iden : String)
  | Constant (c : Const)
  | Variable (s : String)
  | Binop (op : Bop) (lhs rhs : Node)
  | Unop (op : Uop) (expr : Node)
  | CallFunc (iden : String) (args : List Node)
  | If (cond : Node) (body : List Node)
  | Else (body : List Node)
  | Guard (cond this : Node)
  | While (cond : Node) (body : List Node)
  | For (element : String) (index : Option String) (collection : Node)
  | Assign (iden : String) (rhs : Node)
  | Return (e : Node)
  | Break
  | Continue
  | Func (iden : String) (args : List Node)
  | Struct (iden : String) (fields : List (String × TypeNode))
  | Array (elems : List Node)
  | Tuple (elems : List Node)
  | Range (lo hi : Int)
  | Lambda (args : List (String × Option TypeNode)) (body : Node)

/-- The end-of-stream message of `Parser::advance_token` (`parser.rs`). -/
def eosErr : String := "expected token, but reached end of the stream"

mutual

/-- `Parser::parse_type` (`parser.rs` lines 127-153): named type, function
type (after `fn (`), or array type (after `[` `]`). The parser state is the
remaining token list; `fuel` decreases on every nested call so the mutual
recursion is structural (the wrappers below supply sufficient fuel). -/
def parseTypeF : Nat → List TokenContext → Except String (TypeNode × List TokenContext)
  | 0, _ => .error "out of fuel"
  | fuel + 1, ts =>
    match ts with
    | [] => .error eosErr
    | tok :: rest =>
      match tok.kind with
      | .Iden iden => .ok (.Iden iden, rest)
      | .Fn =>
        match rest with
        | [] => .error eosErr
        | tok₂ :: rest₂ =>
          match tok₂.kind with
          | .LParen => parseFnTypeF fuel rest₂
          | _ => .error ("expected \x27)\x27 after <fn>, got " ++ tok₂.display)
      | .LBracket =>
        match rest with
        | [] => .error eosErr
        | tok₂ :: rest₂ =>
          match tok₂.kind with
          | .RBracket =>
            match parseTypeF fuel rest₂ with
            | .error e => .error e
            | .ok (t, rest₃) => .ok (.Array t, rest₃)
          | _ => .error ("expected \x27[]\x27 before an array type, got " ++ tok₂.display)
      | _ => .error ("expected <iden>, <fn>, or <array> as type definition, got " ++ tok.display)

/-- The argument-type loop of `Parser::parse_fn_type` followed by the
return-type parse (`parser.rs` lines 155-171). -/
def parseFnTypeF : Nat → List TokenContext → Except String (TypeNode × List TokenContext)
  | 0, _ => .error "out of fuel"
  | fuel + 1, ts =>
    match parseFnTypeArgsF fuel ts with
    | .error e => .error e
    | .ok (args, rest) =>
      match parseRetTypeF fuel rest with
      | .error e => .error e
      | .ok (ret, rest₂) => .ok (.Fn args ret, rest₂)

/-- The `loop` inside `Parser::parse_fn_type`: one type, then comma to
continue or close-paren to stop. -/
def parseFnTypeArgsF : Nat → List TokenContext → Except String (List TypeNode × List TokenContext)
  | 0, _ => .error "out of fuel"
  | fuel + 1, ts =>
    match parseTypeF fuel ts with
    | .error e => .error e
    | .ok (t, rest) =>
      match rest with
      | [] => .error eosErr
      | tok :: rest₂ =>
        match tok.kind with
        | .Comma =>
          match parseFnTypeArgsF fuel rest₂ with
          | .error e => .error e
          | .ok (args, rest₃) => .ok (t :: args, rest₃)
        | .RParen => .ok ([t], rest₂)
        | _ => .error ("expected \x27,\x27 or \x27)\x27 after argument type in fn type, got " ++
            tok.display)

/-- `Parser::parse_ret_type` (`parser.rs` lines 112-125): an optional
`-> <type>`, by one-token lookahead (`peek`, not `advance`). -/
def parseRetTypeF : Nat → List TokenContext → Except String (Option TypeNode × List TokenContext)
  | 0, _ => .error "out of fuel"
  | fuel + 1, ts =>
    match ts with
    | [] => .ok (none, ts)
    | tok :: rest =>
      match tok.kind with
      | .Arrow =>
        match parseTypeF fuel rest with
        | .error e => .error e
        | .ok (t, rest₂) => .ok (some t, rest₂)
      | _ => .ok (none, ts)

end

/-- `Parser::parse_type_pairs` (`parser.rs` lines 85-110): the shared
`(name, type)` list grammar of parameter and field lists. Each loop
iteration first advances one token: the terminator breaks (so a trailing
comma is accepted), an identifier starts a pair, anything else errors; after
the pair's type, a comma continues and the terminator breaks. The imperative
accumulator is rendered as consing onto the recursive result. -/
def parseTypePairsF (term : Token) :
    Nat → List TokenContext → Except String (List (String × TypeNode) × List TokenContext)
  | 0, _ => .error "out of fuel"
  | fuel + 1, ts =>
    match ts with
    | [] => .error eosErr
    | tok :: rest =>
      match tok.kind with
      | .Iden idenArg =>
        match parseTypeF (rest.length + 1) rest with
        | .error e => .error e
        | .ok (t, rest₂) =>
          match rest₂ with
          | [] => .error eosErr
          | tok₂ :: rest₃ =>
            match tok₂.kind with
            | .Comma =>
              match parseTypePairsF term fuel rest₃ with
              | .error e => .error e
              | .ok (args, rest₄) => .ok ((idenArg, t) :: args, rest₄)
            | k =>
              if k = term then .ok ([(idenArg, t)], rest₃)
              else .error ("expected " ++ term.toText ++ " or \x27,\x27 in function definition, got " ++
                  tok₂.display)
      | k =>
        if k = term then .ok ([], rest)
        else .error ("expected " ++ term.toText ++ " or <iden> in function definition, got " ++
            tok.display)

/-- `Parser::parse_import` (`parser.rs`). -/
def parseImport (ts : List TokenContext) : Except String (Node × List TokenContext) :=
  match ts with
  | [] => .error eosErr
  | tok :: rest =>
    match tok.kind with
    | .Iden iden => .ok (.Import iden, rest)
    | _ => .error ("expected <iden> in import, got " ++ tok.display)

/-- `Parser::parse_def_func` (`parser.rs` lines 68-83): name, `(`, the
typed-pair list closed by `)`, optional return type; the body is left empty
by the source (`let body = vec![]`). -/
def parseDefFunc (ts : List TokenContext) : Except String (Node × List TokenContext) :=
  match ts with
  | [] => .error eosErr
  | tok :: rest =>
    match tok.kind with
    | .Iden iden =>
      match rest with
      | [] => .error eosErr
      | tok₂ :: rest₂ =>
        if tok₂.kind = .LParen then
          match parseTypePairsF .RParen (rest₂.length + 1) rest₂ with
          | .error e => .error e
          | .ok (args, rest₃) =>
            match parseRetTypeF (rest₃.length + 1) rest₃ with
            | .error e => .error e
            | .ok (ret, rest₄) => .ok (.DefFunc iden args ret [], rest₄)
        else .error (Token.LParen.toText ++ " token expected, got " ++ tok₂.display)
    | _ => .error ("expected <iden> in function definition, got " ++ tok.display)

/-- `Parser::parse_def_struct` (`parser.rs` lines 185-198). -/
def parseDefStruct (ts : List TokenContext) : Except String (Node × List TokenContext) :=
  match ts with
  | [] => .error eosErr
  | tok :: rest =>
    match tok.kind with
    | .Iden iden =>
      match rest with
      | [] => .error eosErr
      | tok₂ :: rest₂ =>
        if tok₂.kind = .LBrace then
          match parseTypePairsF .RBrace (rest₂.length + 1) rest₂ with
          | .error e => .error e
          | .ok (fields, rest₃) => .ok (.DefStruct iden fields, rest₃)
        else .error (Token.LBrace.toText ++ " token expected, got " ++ tok₂.display)
    | _ => .error ("expected <iden> after a struct definition, got " ++ tok.display)

/-- `Parser::parse_def_type` (`parser.rs` lines 173-183). -/
def parseDefType (ts : List TokenContext) : Except String (Node × List TokenContext) :=
  match ts with
  | [] => .error eosErr
  | tok :: rest =>
    match tok.kind with
    | .Iden iden =>
      match parseTypeF (rest.length + 1) rest with
      | .error e => .error e
      | .ok (t, rest₂) => .ok (.DefTypeAlias iden t, rest₂)
    | _ => .error ("expected \x27,\x27 or \x27)\x27 after argument type in fn type, got " ++
        tok.display)

/-- The top-level loop of `Parser::parse_program` (`parser.rs` lines 42-55):
dispatch on the leading keyword until the stream is exhausted. -/
def parseProgramF : Nat → List TokenContext → Except String (List Node)
  | 0, _ => .error "out of fuel"
  | fuel + 1, ts =>
    match ts with
    | [] => .ok []
    | tok :: rest =>
      let step : Except String (Node × List TokenContext) :=
        match tok.kind with
        | .Import => parseImport rest
        | .Fn => parseDefFunc rest
        | .Type => parseDefType rest
        | .Struct => parseDefStruct rest
        | _ => .error ("import, fn, or type expected, got " ++ tok.display)
      match step with
      | .error e => .error e
      | .ok (node, rest₂) =>
        match parseProgramF fuel rest₂ with
        | .error e => .error e
        | .ok nodes => .ok (node :: nodes)

/-- `Parser::parse_program` on a token list. -/
def parseProgram (ts : List TokenContext) : Except String (List Node) :=
  parseProgramF (ts.length + 1) ts

/-- Tokenize then parse, as the repository's parser tests do. -/
def parseSource (src : String) : Except String (List Node) :=
  match tokenize src with
  | .error e => .error e
  | .ok ts => parseProgram ts

/-- `interpreter.rs` `RunErr`: runtime errors are values of this type. -/
inductive RunErr where
  | Type (msg : String)
  | Undefined (msg : String)
deriving DecidableEq, Repr

/-- `RunErr::undefined` (`interpreter.rs`). -/
def RunErr.undefinedVar (iden : String) : RunErr :=
  .Undefined ("Undefined variable " ++ iden)

/-- The outcome of running a fallible Rust computation: a normal value, an
`Err` value returned to the caller, or a `panic!` (process abort) with its
message. `panic` is kept distinct from `err` because the claims distinguish
returned error values from aborts. -/
inductive EvalOutcome (α : Type) where
  | ok (a : α)
  | err (e : RunErr)
  | panic (msg : String)
deriving DecidableEq, Repr

/-- Sequencing that mirrors Rust's `?` on `Result` plus panic propagation. -/
def EvalOutcome.bind : EvalOutcome α → (α → EvalOutcome β) → EvalOutcome β
  | .ok a, f => f a
  | .err e, _ => .err e
  | .panic m, _ => .panic m

/-- Map over the `ok` branch (used for `Ok(Constant::Bool(...?))`). -/
def EvalOutcome.mapOk (f : α → β) : EvalOutcome α → EvalOutcome β
  | .ok a => .ok (f a)
  | .err e => .err e
  | .panic m => .panic m

/-- `interpreter.rs` `ArithOp` (imported from the interpreter's `node`
snapshot, reconstructed from its use in `eval_arith_expr`). -/
inductive ArithOp where
  | Add | Multiply | Subtract | Divide
deriving DecidableEq, Repr

/-- `interpreter.rs` `BoolOp` (reconstructed from `eval_bool_expr`). -/
inductive BoolOp where
  | Eq | Neq | Leq | Geq | Lt | Gt
deriving DecidableEq, Repr

/-- `interpreter.rs` `Unop` (reconstructed from `eval_unary_expr`). -/
inductive Unop where
  | Not | Minus
deriving DecidableEq, Repr

/-- The expression type evaluated by `interpreter.rs` (its `node` snapshot is
absent from `src/`; the shape is forced by `eval_expr`'s match arms). The
`ArithExpr`/`BoolExpr` structs (`op`, boxed `lhs`, boxed `rhs`) and
`FuncNode` (`iden`, `args`) are inlined as constructor fields. The constant
payload is `node.rs`'s `Const` (see its docstring). -/
inductive Expr where
  | Constant (c : Const)
  | Variable (v : String)
  | BinArith (op : ArithOp) (lhs rhs : Expr)
  | BinBool (op : BoolOp) (lhs rhs : Expr)
  | Unary (op : Unop) (e : Expr)
  | CallFunc (iden : String) (args : List Expr)

/-- The discriminant index of a `Const` variant, in `node.rs` declaration
order; Rust's derived `PartialOrd` orders values of distinct variants by
this index. -/
def Const.variantIdx : Const → Nat
  | .Int _ => 0
  | .Float _ => 1
  | .Bool _ => 2
  | .Char _ => 3
  | .String _ => 4

/-- Three-way comparison used to embed the derived payload orderings. -/
def cmpOrd {α : Type} [LinearOrder α] (x y : α) : Ordering :=
  if x < y then .lt else if x = y then .eq else .gt

/-- Rust byte-lexicographic string ordering. For strings of scalars below
256 produced by this pipeline, UTF-8 byte order coincides with code-point
lexicographic order, embedded here on the character lists. -/
def charsLex : List Char → List Char → Ordering
  | [], [] => .eq
  | [], _ :: _ => .lt
  | _ :: _, [] => .gt
  | a :: as, b :: bs =>
    if a < b then .lt else if b < a then .gt else charsLex as bs

/-- Rust's derived `PartialOrd::partial_cmp` for `Const`: same variants
compare their payloads, distinct variants compare by declaration order.
(For `f64` payloads the source comparison is partial — `None` on NaN; NaN
is not representable in the `Rat` embedding, so the result is total here.) -/
def Const.partialCmp : Const → Const → Option Ordering
  | .Int x, .Int y => some (cmpOrd x y)
  | .Float x, .Float y => some (cmpOrd x y)
  | .Bool x, .Bool y => some (cmpOrd (cond x 1 0) (cond y 1 0 : Nat))
  | .Char x, .Char y => some (cmpOrd x.toNat y.toNat)
  | .String x, .String y => some (charsLex x.data y.data)
  | a, b => some (cmpOrd a.variantIdx b.variantIdx)

/-- Rust's derived `PartialEq::eq` for `Const`: distinct variants are never
equal, same variants compare payloads. -/
def constBeq : Const → Const → Bool
  | .Int x, .Int y => x = y
  | .Float x, .Float y => x = y
  | .Bool x, .Bool y => x = y
  | .Char x, .Char y => x = y
  | .String x, .String y => x = y
  | _, _ => false

/-- Rust `PartialOrd::le`: `matches!(partial_cmp, Some(Less | Equal))`. -/
def constLe (a b : Const) : Bool :=
  match a.partialCmp b with
  | some .lt => true
  | some .eq => true
  | _ => false

/-- Rust `PartialOrd::ge`. -/
def constGe (a b : Const) : Bool :=
  match a.partialCmp b with
  | some .gt => true
  | some .eq => true
  | _ => false

/-- Rust `PartialOrd::lt`. -/
def constLt (a b : Const) : Bool :=
  match a.partialCmp b with
  | some .lt => true
  | _ => false

/-- Rust `PartialOrd::gt`. -/
def constGt (a b : Const) : Bool :=
  match a.partialCmp b with
  | some .gt => true
  | _ => false

/-- `eval_add` (`interpreter.rs` lines 100-111). -/
def evalAdd : Const → Const → EvalOutcome Const
  | .Int x, .Int y => .ok (.Int (x + y))
  | .Float x, .Float y => .ok (.Float (x + y))
  | .String x, .String y => .ok (.String (x ++ y))
  | _, _ => .err (.Type "Add operator must be applied to 2 ints, floats, or strings")

/-- The `for _ in 0..rhs` loop of `eval_multiply`'s string case: the string
is appended `rhs` times (Rust's `0..n` range is empty for `n ≤ 0`). -/
def repeatString (s : String) (n : Int) : String :=
  String.join (List.replicate n.toNat s)

/-- `eval_multiply` (`interpreter.rs` lines 113-126). -/
def evalMultiply : Const → Const → EvalOutcome Const
  | .Int x, .Int y => .ok (.Int (x * y))
  | .Float x, .Float y => .ok (.Float (x * y))
  | .String x, .Int y => .ok (.String (repeatString x y))
  | _, _ => .err (.Type "Subtract operator must be applied to 2 ints, 2 floats, or between a string and an int")

/-- `eval_subtract` (`interpreter.rs` lines 128-134). -/
def evalSubtract : Const → Const → EvalOutcome Const
  | .Int x, .Int y => .ok (.Int (x - y))
  | .Float x, .Float y => .ok (.Float (x - y))
  | _, _ => .err (.Type "Subtract operator must be applied to 2 ints or 2 floats")

/-- `eval_divide` (`interpreter.rs` lines 136-142): the `Int` case is Rust's
`lhs / rhs` on `i32`, which truncates toward zero and *panics* on a zero
divisor (the source performs no check). The `Float` case is `f64` division
(embedded as exact `Rat` division; unexercised by the claims). -/
def evalDivide : Const → Const → EvalOutcome Const
  | .Int x, .Int y =>
    if y = 0 then .panic "attempt to divide by zero"
    else .ok (.Int (Int.tdiv x y))
  | .Float x, .Float y => .ok (.Float (x / y))
  | _, _ => .err (.Type "Divide operator must be applied to 2 ints or 2 floats")

mutual

/-- `eval_expr` (`interpreter.rs` lines 65-74). Note the source takes no
environment parameter and the `Variable` arm is
`panic!("Variable access not yet implemented")`. So that Lean accepts the
mutual recursion structurally (and the definitions reduce by `rfl`), the
bodies of `eval_arith_expr`, `eval_bool_expr`, `eval_unary_expr` and
`eval_func` are inlined at the corresponding arms; the named definitions
`evalArithExpr`, `evalBoolExpr`, `evalUnaryExpr`, `evalFunc` below restate
them verbatim and agree definitionally. -/
def evalExpr : Expr → EvalOutcome Const
  | .Constant c => .ok c
  | .Variable _ => .panic "Variable access not yet implemented"
  | .BinArith op lhs rhs =>
    (evalExpr lhs).bind fun l =>
      (evalExpr rhs).bind fun r =>
        match op with
        | .Add => evalAdd l r
        | .Multiply => evalMultiply l r
        | .Subtract => evalSubtract l r
        | .Divide => evalDivide l r
  | .BinBool op lhs rhs =>
    ((evalExpr lhs).bind fun l =>
      (evalExpr rhs).bind fun r =>
        match op with
        | .Eq => .ok (constBeq l r)
        | .Neq => .ok (!constBeq l r)
        | .Leq => .ok (constLe l r)
        | .Geq => .ok (constGe l r)
        | .Lt => .ok (constLt l r)
        | .Gt => .ok (constGt l r) : EvalOutcome Bool).mapOk Const.Bool
  | .Unary op e =>
    match op with
    | .Not =>
      (evalExpr e).bind fun c =>
        match c with
        | .Bool b => .ok (.Bool b)
        | _ => .err (.Type "Not operator must be applied to a bool")
    | .Minus =>
      (evalExpr e).bind fun c =>
        match c with
        | .Int n => .ok (.Int (-n))
        | .Float q => .ok (.Float (-q))
        | _ => .err (.Type "Unary minus must be applied to an int or a float")
  | .CallFunc _iden args =>
    (evalArgs args).bind fun _ => .panic "Function call not yet implemented"

/-- The argument loop of `eval_func` (`interpreter.rs` lines 158-169):
arguments are evaluated left to right, returning the first error. -/
def evalArgs : List Expr → EvalOutcome (List Const)
  | [] => .ok []
  | a :: as => (evalExpr a).bind fun c => (evalArgs as).mapOk (c :: ·)

end

/-- `eval_arith_expr` (`interpreter.rs` lines 76-85): evaluate lhs then rhs,
then dispatch on the operator. -/
def evalArithExpr (op : ArithOp) (lhs rhs : Expr) : EvalOutcome Const :=
  (evalExpr lhs).bind fun l =>
    (evalExpr rhs).bind fun r =>
      match op with
      | .Add => evalAdd l r
      | .Multiply => evalMultiply l r
      | .Subtract => evalSubtract l r
      | .Divide => evalDivide l r

/-- `eval_bool_expr` (`interpreter.rs` lines 87-98): evaluate both sides,
then apply the derived comparison of `Const` — there is no variant check
and no `Type` error path in this function. -/
def evalBoolExpr (op : BoolOp) (lhs rhs : Expr) : EvalOutcome Bool :=
  (evalExpr lhs).bind fun l =>
    (evalExpr rhs).bind fun r =>
      match op with
      | .Eq => .ok (constBeq l r)
      | .Neq => .ok (!constBeq l r)
      | .Leq => .ok (constLe l r)
      | .Geq => .ok (constGe l r)
      | .Lt => .ok (constLt l r)
      | .Gt => .ok (constGt l r)

/-- `eval_unary_expr` (`interpreter.rs` lines 144-156). Note the source's
`Not` arm returns `Ok(Constant::Bool(b))` — the operand *unnegated*. -/
def evalUnaryExpr (op : Unop) (e : Expr) : EvalOutcome Const :=
  match op with
  | .Not =>
    (evalExpr e).bind fun c =>
      match c with
      | .Bool b => .ok (.Bool b)
      | _ => .err (.Type "Not operator must be applied to a bool")
  | .Minus =>
    (evalExpr e).bind fun c =>
      match c with
      | .Int n => .ok (.Int (-n))
      | .Float q => .ok (.Float (-q))
      | _ => .err (.Type "Unary minus must be applied to an int or a float")

/-- `eval_func` (`interpreter.rs` lines 158-169): after all arguments
evaluate successfully the source hits
`panic!("Function call not yet implemented")`. -/
def evalFunc (_iden : String) (args : List Expr) : EvalOutcome Const :=
  (evalArgs args).bind fun _ => .panic "Function call not yet implemented"


/-- `interpreter.rs` `StackFrame`: an ordered name/value association list. -/
abbrev StackFrame : Type := List (String × Const)

/-- `interpreter.rs` `Environment`: a stack of frames. -/
structure Environment where
  frames : List StackFrame

/-- `Environment::push`. -/
def Environment.push (env : Environment) : Environment :=
  ⟨env.frames ++ [[]]⟩

/-- `Environment::top` (`interpreter.rs` lines 33-39): pushes an empty frame
when none exists, then exposes the last frame. The embedding splits the
Rust `&mut` access into the possibly-pushing state update (`ensureTop`) and
the frame being read/replaced. -/
def Environment.ensureTop (env : Environment) : Environment :=
  if env.frames.length = 0 then env.push else env

/-- The frame `Environment::top` returns (the last frame of `ensureTop`). -/
def Environment.topFrame (env : Environment) : StackFrame :=
  env.ensureTop.frames.getLast!

/-- The in-place update of `Environment::write`'s loop: find the first pair
whose name matches and replace its value; `none` when absent. -/
def writeFrame (iden : String) (c : Const) : StackFrame → Option StackFrame
  | [] => none
  | (k, v) :: rest =>
    if iden = k then some ((k, c) :: rest)
    else match writeFrame iden c rest with
      | some rest' => some ((k, v) :: rest')
      | none => none

/-- `Environment::write` (`interpreter.rs` lines 41-50): update the binding
in the top frame if present, else return the `Undefined` error; the state
change is only what `top`'s implicit push performs. -/
def Environment.write (env : Environment) (iden : String) (c : Const) :
    Except RunErr Unit × Environment :=
  let env' := env.ensureTop
  match writeFrame iden c env'.frames.getLast! with
  | some frame' => (.ok (), ⟨env'.frames.dropLast ++ [frame']⟩)
  | none => (.error (RunErr.undefinedVar iden), env')

/-- The lookup of `Environment::read`'s loop. -/
def readFrame (iden : String) : StackFrame → Option Const
  | [] => none
  | (k, v) :: rest => if iden = k then some v else readFrame iden rest

/-- `Environment::read` (`interpreter.rs` lines 52-60): look the identifier
up in the top frame only; `Undefined` error when absent. -/
def Environment.read (env : Environment) (iden : String) :
    Except RunErr Const × Environment :=
  let env' := env.ensureTop
  match readFrame iden env'.frames.getLast! with
  | some c => (.ok c, env')
  | none => (.error (RunErr.undefinedVar iden), env')

/-! ## Helper lemmas -/

/-- String `foldl`-append distributes over a prepended accumulator. -/
theorem foldl_append_assoc (l : List String) :
    ∀ a b : String, List.foldl (fun r s => r ++ s) (a ++ b) l =
      a ++ List.foldl (fun r s => r ++ s) b l := by
  induction l with
  | nil => intro a b; rfl
  | cons x xs ih =>
    intro a b
    simpa [String.append_assoc] using ih a (b ++ x)

/-- `ensureTop` is idempotent. -/
theorem Environment.ensureTop_ensureTop (env : Environment) :
    env.ensureTop.ensureTop = env.ensureTop := by
  cases env with
  | mk frames =>
    cases frames with
    | nil => rfl
    | cons f fs => simp [Environment.ensureTop, Environment.push]

/-- `writeFrame` finds nothing when the identifier names no pair. -/
theorem writeFrame_eq_none (iden : String) (c : Const) :
    ∀ f : StackFrame, (∀ p ∈ f, p.1 ≠ iden) → writeFrame iden c f = none := by
  intro f h
  induction f with
  | nil => rfl
  | cons hd tl ih =>
    have hhd : hd.1 ≠ iden := h hd (by simp)
    have htl : ∀ p ∈ tl, p.1 ≠ iden := fun p hp => h p (by simp [hp])
    simp only [writeFrame]
    rw [if_neg (fun he => hhd he.symm), ih htl]

/-! ## Claim theorems -/

/-- C1: the claim says evaluating a variable expression looks the identifier
up in the environment's top frame, returns the bound value or an
`Undefined` error, and never aborts. The code's `eval_expr` takes no
environment at all and its `Variable` arm is
`panic!("Variable access not yet implemented")`, an abort; the lookup the
claim describes exists only in the unused `Environment::read`, which does
return the `Undefined` error naming the identifier. -/
theorem c1_variable_eval_panics :
    evalExpr (.Variable "x") = .panic "Variable access not yet implemented" ∧
    (∀ v : String, evalExpr (.Variable v) = .panic "Variable access not yet implemented") ∧
    (Environment.read ⟨[]⟩ "x").1 = .error (.Undefined "Undefined variable x") :=
  ⟨rfl, fun _ => rfl, rfl⟩

/-- C2, counterexample: comparing an `Int` against a `String` with `<=`
returns `Ok(true)` (derived cross-variant ordering), not the `Type` error
the claim requires. -/
theorem c2_cross_variant_compare_counterexample :
    evalBoolExpr .Leq (.Constant (.Int 1)) (.Constant (.String "a")) = .ok true := rfl

/-- C2, amended: for `Const` values of differing variants the comparison
operators `<= >= < >` never produce a `Type` error; they return `Ok` of the
Bool obtained by comparing the variants' declaration indices
(`Int < Float < Bool < Char < String`), as Rust's derived `PartialOrd`
does. -/
theorem c2_cross_variant_compare_by_variant_order :
    ∀ a b : Const, a.variantIdx ≠ b.variantIdx →
      evalBoolExpr .Leq (.Constant a) (.Constant b) = .ok (decide (a.variantIdx ≤ b.variantIdx)) ∧
      evalBoolExpr .Geq (.Constant a) (.Constant b) = .ok (decide (b.variantIdx ≤ a.variantIdx)) ∧
      evalBoolExpr .Lt (.Constant a) (.Constant b) = .ok (decide (a.variantIdx < b.variantIdx)) ∧
      evalBoolExpr .Gt (.Constant a) (.Constant b) = .ok (decide (b.variantIdx < a.variantIdx)) := by
  intro a b h
  cases a <;> cases b <;> first
    | exact absurd rfl h
    | exact ⟨rfl, rfl, rfl, rfl⟩

/-- C2, witness: the amended theorem instantiated at `Int 1` vs
`String "a"`. -/
theorem c2_cross_variant_compare_witness :
    evalBoolExpr .Lt (.Constant (.Int 1)) (.Constant (.String "a")) = .ok true := by
  have h := c2_cross_variant_compare_by_variant_order (.Int 1) (.String "a") (by decide)
  exact h.2.2.1

/-- C3, counterexample: `Int` division by zero does not return an error
value — the source's unchecked `lhs / rhs` panics (a process abort). -/
theorem c3_divide_by_zero_counterexample :
    evalDivide (.Int 1) (.Int 0) = .panic "attempt to divide by zero" ∧
    ¬ ∃ e, evalDivide (.Int 1) (.Int 0) = .err e := by
  refine ⟨rfl, ?_⟩
  rintro ⟨e, he⟩
  simp [evalDivide] at he

/-- C3, amended: for every pair of `Int` values with zero divisor,
evaluating the division operator panics with the host's divide-by-zero
panic; it never returns a normal (sentinel) result and never returns an
error value. -/
theorem c3_divide_by_zero_panics :
    ∀ m n : Int, n = 0 →
      evalDivide (.Int m) (.Int n) = .panic "attempt to divide by zero" := by
  intro m n h
  subst h
  rfl

/-- C3, witness: the amended theorem at `1 / 0`. -/
theorem c3_divide_by_zero_witness :
    evalDivide (.Int 1) (.Int 0) = .panic "attempt to divide by zero" :=
  c3_divide_by_zero_panics 1 0 rfl

/-- C6: the claim says unary `!` on `Bool(b)` yields `Bool(not b)`. The
source's `Not` arm returns the operand unnegated (`Ok(Constant::Bool(b))`),
so `!true` evaluates to `Bool(true)`; the non-Bool half of the claim (a
`Type` error) does hold. -/
theorem c6_not_does_not_negate :
    (∀ b : Bool, evalUnaryExpr .Not (.Constant (.Bool b)) = .ok (.Bool b)) ∧
    evalUnaryExpr .Not (.Constant (.Bool true)) ≠ .ok (.Bool false) ∧
    evalUnaryExpr .Not (.Constant (.Int 0)) =
      .err (.Type "Not operator must be applied to a bool") := by
  refine ⟨fun b => rfl, ?_, rfl⟩
  intro h
  simp [evalUnaryExpr, evalExpr, EvalOutcome.bind] at h

/-- C7: `*` on `String(s)` and `Int(n)` yields the string repeated `n`
times (`repeatString`, the `for _ in 0..rhs` loop), which is empty for
`n ≤ 0` and satisfies the prepend recurrence for `n ≥ 0`; in particular
`"ab" * 3` evaluates to `String("ababab")`. -/
theorem c7_string_times_int :
    ∀ (s : String) (n : Int),
      evalMultiply (.String s) (.Int n) = .ok (.String (repeatString s n)) ∧
      (n ≤ 0 → repeatString s n = "") ∧
      (0 ≤ n → repeatString s (n + 1) = s ++ repeatString s n) ∧
      evalExpr (.BinArith .Multiply (.Constant (.String "ab")) (.Constant (.Int 3))) =
        .ok (.String "ababab") := by
  intro s n
  refine ⟨rfl, ?_, ?_, rfl⟩
  · intro h
    simp [repeatString, Int.toNat_of_nonpos h, String.join]
  · intro h
    have ht : (n + 1).toNat = n.toNat + 1 := by omega
    have := foldl_append_assoc (List.replicate n.toNat s) s ""
    simp only [repeatString, ht, List.replicate_succ, String.join, List.foldl_cons]
    simpa using this

/-- C7, witness: the hypotheses discharged at `n = -1` and `n = 2`. -/
theorem c7_string_times_int_witness :
    repeatString "ab" (-1) = "" ∧ repeatString "ab" (2 + 1) = "ab" ++ repeatString "ab" 2 :=
  ⟨(c7_string_times_int "ab" (-1)).2.1 (by decide),
   (c7_string_times_int "ab" 2).2.2.1 (by decide)⟩

/-- C10: when the identifier is absent from the top frame,
`Environment::write` returns the `Undefined` error and changes nothing
beyond `top`'s implicit push of a first empty frame — in particular no
binding is added and the top frame's contents are unchanged. -/
theorem c10_write_absent_identifier :
    ∀ (env : Environment) (iden : String) (c : Const),
      (∀ p ∈ env.topFrame, p.1 ≠ iden) →
      (env.write iden c).1 = .error (RunErr.undefinedVar iden) ∧
      (env.write iden c).2 = env.ensureTop ∧
      (env.write iden c).2.topFrame = env.topFrame := by
  intro env iden c h
  have hn : writeFrame iden c env.ensureTop.frames.getLast! = none :=
    writeFrame_eq_none iden c _ h
  simp [Environment.write, hn, Environment.topFrame, Environment.ensureTop_ensureTop]

/-- C10, witness: writing `x` into a frame that only binds `y`. -/
theorem c10_write_absent_identifier_witness :
    (Environment.write ⟨[[("y", .Int 1)]]⟩ "x" (.Int 2)).1 =
      .error (RunErr.undefinedVar "x") ∧
    (Environment.write ⟨[[("y", .Int 1)]]⟩ "x" (.Int 2)).2 =
      Environment.ensureTop ⟨[[("y", .Int 1)]]⟩ ∧
    (Environment.write ⟨[[("y", .Int 1)]]⟩ "x" (.Int 2)).2.topFrame =
      Environment.topFrame ⟨[[("y", .Int 1)]]⟩ :=
  c10_write_absent_identifier ⟨[[("y", .Int 1)]]⟩ "x" (.Int 2) (by decide)

/-- The dot-is-a-float flag of `scan_number` can never be cleared: the scan
loop breaks on any non-alphanumeric character before the `c == '.'` check,
and `'.'` is not alphanumeric. -/
theorem scanNumLoop_isInt :
    ∀ (inp : List Char) (acc : String), (scanNumLoop inp acc true).2.1 = true := by
  intro inp
  induction inp with
  | nil => intro acc; rfl
  | cons c rest ih =>
    intro acc
    by_cases hc : rustIsAlphanumeric c
    · have hdot : c ≠ '.' := by
        intro he
        rw [he] at hc
        exact absurd hc (by decide)
      simp [scanNumLoop, hc, hdot, ih]
    · simp [scanNumLoop, hc]

/-- C4: the claim says a numeric token whose text contains `'.'` becomes a
single floating literal. In the source the scan loop breaks on any
non-alphanumeric character — including `'.'` — before the dot check runs,
so the dot is never accumulated, `is_int` stays `true`, and the float
branch is dead: `"1.5"` tokenizes to `IntLit(1), Dot, IntLit(5)`, and every
successful `scan_number` yields an integer literal token. -/
theorem c4_number_scan_never_floats :
    tokenKinds "1.5" = .ok [.IntLit 1, .Dot, .IntLit 5] ∧
    (∀ (inp : List Char) (acc : String), (scanNumLoop inp acc true).2.1 = true) ∧
    (∀ (c : Char) (s : LexState) (r : TokenContext × LexState),
      scanNumber c s = .ok r → ∃ n, r.1.kind = Token.IntLit n) := by
  refine ⟨rfl, scanNumLoop_isInt, ?_⟩
  intro c s r h
  have hI := scanNumLoop_isInt s.input (String.singleton c)
  unfold scanNumber at h
  rcases hq : scanNumLoop s.input (String.singleton c) true with ⟨tokstr, isInt, rest⟩
  rw [hq] at h hI
  simp only at hI
  subst hI
  simp only [if_pos rfl] at h
  rcases hp : parseI32 tokstr with _ | n
  · rw [hp] at h
    exact absurd h (by simp)
  · rw [hp] at h
    simp only [if_true, Except.ok.injEq] at h
    exact ⟨n, by rw [← h]⟩

/-- C4, witness: a successful `scan_number` run on the digit `5` at end of
input yields the integer literal token. -/
theorem c4_number_scan_never_floats_witness :
    ∃ n, (TokenContext.mk (Token.IntLit 5) ⟨0, 0⟩ ⟨0, 0⟩).kind = Token.IntLit n :=
  c4_number_scan_never_floats.2.2 '5' ⟨[], ⟨0, 0⟩⟩
    (⟨.IntLit 5, ⟨0, 0⟩, ⟨0, 0⟩⟩, ⟨[], ⟨0, 0⟩⟩) rfl

/-- C9: tokenizing the loop fixture yields exactly the claimed sequence
(matching the repository's own `test_lex_loop`). -/
theorem c9_tokenize_loop_fixture :
    tokenKinds "x := 0;\nwhile i < n \x7b\nx = x + 2;\n\x7d\n" =
      .ok [.Iden "x", .Declare, .IntLit 0, .SemiColon, .While, .Iden "i",
           .Operator .Lt, .Iden "n", .LBrace, .Iden "x", .Assign, .Iden "x",
           .Operator .Plus, .IntLit 2, .SemiColon, .RBrace] := rfl

/-- Componentwise order on positions: non-decreasing in line and in column. -/
def posLe (p q : Position) : Prop :=
  p.line ≤ q.line ∧ p.col ≤ q.col

instance (p q : Position) : Decidable (posLe p q) :=
  inferInstanceAs (Decidable (_ ∧ _))

theorem posLe_refl (p : Position) : posLe p p := ⟨le_refl _, le_refl _⟩

theorem posLe_trans {p q r : Position} (h₁ : posLe p q) (h₂ : posLe q r) : posLe p r :=
  ⟨le_trans h₁.1 h₂.1, le_trans h₁.2 h₂.2⟩

/-- Reading a character never decreases either position component. -/
theorem posLe_advancePos (p : Position) (c : Char) : posLe p (advancePos p c) := by
  unfold advancePos
  split
  · exact ⟨Nat.le_succ _, le_refl _⟩
  · exact ⟨le_refl _, Nat.le_succ _⟩

/-- The string/char scan loop only moves the position forward. -/
theorem scanTextLoop_posLe (term : Char) :
    ∀ (inp : List Char) (pos : Position) (isesc : Bool) (acc str : String)
      (rest : List Char) (pos' : Position),
      scanTextLoop term inp pos isesc acc = .ok (str, rest, pos') → posLe pos pos' := by
  intro inp
  induction inp with
  | nil =>
    intro pos isesc acc str rest pos' h
    simp only [scanTextLoop, Except.ok.injEq, Prod.mk.injEq] at h
    rw [← h.2.2]
    exact posLe_refl pos
  | cons c tl ih =>
    intro pos isesc acc str rest pos' h
    rw [scanTextLoop] at h
    cases isesc with
    | true =>
      simp only [if_pos] at h
      rcases hm : matchEscseq c term with e | c'
      · rw [hm] at h
        exact absurd h (by simp)
      · rw [hm] at h
        exact posLe_trans (posLe_advancePos pos c) (ih _ _ _ _ _ _ h)
    | false =>
      simp only [Bool.false_eq_true, if_false] at h
      by_cases hb : c = '\\'
      · rw [if_pos hb] at h
        exact posLe_trans (posLe_advancePos pos c) (ih _ _ _ _ _ _ h)
      · rw [if_neg hb] at h
        by_cases ht : c = term
        · rw [if_pos ht] at h
          simp only [Except.ok.injEq, Prod.mk.injEq] at h
          rw [← h.2.2]
          exact posLe_advancePos pos c
        · rw [if_neg ht] at h
          exact posLe_trans (posLe_advancePos pos c) (ih _ _ _ _ _ _ h)

/-- `scan_text` reports the start position, an end position not before it,
and leaves the lexer at the end position. -/
theorem scanText_pos (term : Char) (s : LexState) (str : String)
    (lpos rpos : Position) (s' : LexState)
    (h : scanText term s = .ok (str, lpos, rpos, s')) :
    lpos = s.pos ∧ posLe s.pos rpos ∧ rpos = s'.pos := by
  unfold scanText at h
  rcases hq : scanTextLoop term s.input s.pos false "" with e | ⟨str₂, rest₂, pos₂⟩
  · rw [hq] at h
    exact absurd h (by simp)
  · rw [hq] at h
    simp only [Except.ok.injEq, Prod.mk.injEq] at h
    obtain ⟨-, h2, h3, h4⟩ := h
    subst h2 h3 h4
    exact ⟨rfl, scanTextLoop_posLe term _ _ _ _ _ _ _ hq, rfl⟩

/-- Position facts for a successful `scan_char`. -/
theorem scanChar_pos (s : LexState) (t : TokenContext) (s' : LexState)
    (h : scanChar s = .ok (t, s')) :
    t.lpos = s.pos ∧ posLe t.lpos t.rpos ∧ t.rpos = s'.pos := by
  unfold scanChar at h
  rcases hq : scanText (Char.ofNat 39) s with e | ⟨str, lpos, rpos, s₂⟩
  · rw [hq] at h
    exact absurd h (by simp)
  · rw [hq] at h
    simp only [] at h
    obtain ⟨hl, hm, hr⟩ := scanText_pos _ _ _ _ _ _ hq
    rcases hc : str.data.head? with _ | c <;> rw [hc] at h
    · exact absurd h (by simp)
    · rcases hn : str.utf8ByteSize with _ | k <;> rw [hn] at h
      · exact absurd h (by simp)
      · rcases hk : k with _ | k₂ <;> rw [hk] at h
        · simp only [Except.ok.injEq, Prod.mk.injEq] at h
          obtain ⟨ht, hs⟩ := h
          rw [← ht, ← hs]
          exact ⟨hl, by rw [hl]; exact hm, hr⟩
        · exact absurd h (by simp)

/-- Position facts for a successful `scan_string`. -/
theorem scanString_pos (s : LexState) (t : TokenContext) (s' : LexState)
    (h : scanString s = .ok (t, s')) :
    t.lpos = s.pos ∧ posLe t.lpos t.rpos ∧ t.rpos = s'.pos := by
  unfold scanString at h
  rcases hq : scanText '"' s with e | ⟨str, lpos, rpos, s₂⟩
  · rw [hq] at h
    exact absurd h (by simp)
  · rw [hq] at h
    obtain ⟨hl, hm, hr⟩ := scanText_pos _ _ _ _ _ _ hq
    simp only [Except.ok.injEq, Prod.mk.injEq] at h
    obtain ⟨ht, hs⟩ := h
    rw [← ht, ← hs]
    exact ⟨hl, by rw [hl]; exact hm, hr⟩

/-- Position facts for a successful `scan_number`: the loop consumes without
reading, so every recorded position is the start position. -/
theorem scanNumber_pos (c : Char) (s : LexState) (t : TokenContext) (s' : LexState)
    (h : scanNumber c s = .ok (t, s')) :
    t.lpos = s.pos ∧ t.rpos = s.pos ∧ s'.pos = s.pos := by
  unfold scanNumber at h
  rcases hq : scanNumLoop s.input (String.singleton c) true with ⟨tokstr, isInt, rest⟩
  rw [hq] at h
  cases isInt with
  | true =>
    simp only [if_true] at h
    rcases hp : parseI32 tokstr with _ | n <;> rw [hp] at h
    · exact absurd h (by simp)
    · simp only [Except.ok.injEq, Prod.mk.injEq] at h
      obtain ⟨ht, hs⟩ := h
      rw [← ht, ← hs]
      exact ⟨rfl, rfl, rfl⟩
  | false =>
    simp only [Bool.false_eq_true, if_false] at h
    simp only [Except.ok.injEq, Prod.mk.injEq] at h
    obtain ⟨ht, hs⟩ := h
    rw [← ht, ← hs]
    exact ⟨rfl, rfl, rfl⟩

/-- Position facts for `scan_keyword` (always succeeds, never reads). -/
theorem scanKeyword_pos (c : Char) (s : LexState) :
    (scanKeyword c s).1.lpos = s.pos ∧ (scanKeyword c s).1.rpos = s.pos ∧
    (scanKeyword c s).2.pos = s.pos := by
  unfold scanKeyword
  rcases hq : scanKeywordLoop s.input (String.singleton c) with ⟨tokstr, rest⟩
  exact ⟨rfl, rfl, rfl⟩

/-- Position facts for a successful `scan_special`. -/
theorem scanSpecial_pos (c : Char) (s : LexState) (t : TokenContext) (s' : LexState)
    (h : scanSpecial c s = .ok (t, s')) :
    t.lpos = s.pos ∧ t.rpos = s.pos ∧ s'.pos = s.pos := by
  unfold scanSpecial at h
  rcases hq : scanSpecialLoop s.input (String.singleton c) with ⟨tokstr, rest⟩
  rw [hq] at h
  simp only [] at h
  rcases hk : specialToken tokstr with _ | kind <;> rw [hk] at h
  · exact absurd h (by simp)
  · simp only [Except.ok.injEq, Prod.mk.injEq] at h
    obtain ⟨ht, hs⟩ := h
    rw [← ht, ← hs]
    exact ⟨rfl, rfl, rfl⟩

/-- Every token produced by `read_token` spans positions at or after the
starting position, with `lpos ≤ rpos`, and leaves the lexer at `rpos`. -/
theorem readToken_pos (s : LexState) (t : TokenContext) (s' : LexState)
    (h : readToken s = .ok (some (t, s'))) :
    posLe s.pos t.lpos ∧ posLe t.lpos t.rpos ∧ t.rpos = s'.pos := by
  unfold readToken skipSpaces lexRead at h
  rcases hni : skipSpacesList s.input with _ | ⟨c, rest⟩ <;> rw [hni] at h
  · exact absurd h (by simp)
  · simp only at h
    have hadv : posLe s.pos (advancePos s.pos c) := posLe_advancePos s.pos c
    rcases hmc : matchControl c with _ | kind <;> rw [hmc] at h
    · by_cases h39 : c = Char.ofNat 39
      · rw [if_pos h39] at h
        rcases hsc : scanChar ⟨rest, advancePos s.pos c⟩ with e | ⟨t₂, s₂⟩ <;> rw [hsc] at h
        · exact absurd h (by simp)
        · simp only [Except.ok.injEq, Option.some.injEq, Prod.mk.injEq] at h
          obtain ⟨ht, hs⟩ := h
          subst ht hs
          obtain ⟨hl, hm, hr⟩ := scanChar_pos _ _ _ hsc
          exact ⟨by rw [hl]; exact hadv, hm, hr⟩
      · rw [if_neg h39] at h
        by_cases hdq : c = '"'
        · rw [if_pos hdq] at h
          rcases hsc : scanString ⟨rest, advancePos s.pos c⟩ with e | ⟨t₂, s₂⟩ <;> rw [hsc] at h
          · exact absurd h (by simp)
          · simp only [Except.ok.injEq, Option.some.injEq, Prod.mk.injEq] at h
            obtain ⟨ht, hs⟩ := h
            subst ht hs
            obtain ⟨hl, hm, hr⟩ := scanString_pos _ _ _ hsc
            exact ⟨by rw [hl]; exact hadv, hm, hr⟩
        · rw [if_neg hdq] at h
          by_cases hdig : rustIsDigit c
          · rw [if_pos hdig] at h
            rcases hsc : scanNumber c ⟨rest, advancePos s.pos c⟩ with e | ⟨t₂, s₂⟩ <;> rw [hsc] at h
            · exact absurd h (by simp)
            · simp only [Except.ok.injEq, Option.some.injEq, Prod.mk.injEq] at h
              obtain ⟨ht, hs⟩ := h
              subst ht hs
              obtain ⟨hl, hr, hs'⟩ := scanNumber_pos _ _ _ _ hsc
              exact ⟨by rw [hl]; exact hadv, by rw [hl, hr]; exact posLe_refl _,
                by rw [hr, hs']⟩
          · rw [if_neg hdig] at h
            by_cases haln : rustIsAlphanumeric c
            · rw [if_pos haln] at h
              have hpair : scanKeyword c ⟨rest, advancePos s.pos c⟩ = (t, s') := by
                simpa using h
              obtain ⟨hl, hr, hs'⟩ := scanKeyword_pos c ⟨rest, advancePos s.pos c⟩
              rw [hpair] at hl hr hs'
              simp only [] at hl hr hs'
              exact ⟨by rw [hl]; exact hadv, by rw [hl, hr]; exact posLe_refl _,
                by rw [hr, hs']⟩
            · rw [if_neg haln] at h
              rcases hsc : scanSpecial c ⟨rest, advancePos s.pos c⟩ with e | ⟨t₂, s₂⟩ <;>
                rw [hsc] at h
              · exact absurd h (by simp)
              · simp only [Except.ok.injEq, Option.some.injEq, Prod.mk.injEq] at h
                obtain ⟨ht, hs⟩ := h
                subst ht hs
                obtain ⟨hl, hr, hs'⟩ := scanSpecial_pos _ _ _ _ hsc
                exact ⟨by rw [hl]; exact hadv, by rw [hl, hr]; exact posLe_refl _,
                  by rw [hr, hs']⟩
    · simp only [Except.ok.injEq, Option.some.injEq, Prod.mk.injEq] at h
      obtain ⟨ht, hs⟩ := h
      subst ht hs
      exact ⟨hadv, posLe_refl _, rfl⟩

/-- The full position sequence of a tokenizer run, starting from the current
position, is componentwise non-decreasing. -/
theorem readTokensFuel_chain :
    ∀ (fuel : Nat) (s : LexState) (toks : List TokenContext),
      readTokensFuel fuel s = .ok toks →
      List.Chain' posLe (s.pos :: toks.flatMap fun t => [t.lpos, t.rpos]) := by
  intro fuel
  induction fuel with
  | zero =>
    intro s toks h
    exact absurd h (by simp [readTokensFuel])
  | succ fuel ih =>
    intro s toks h
    rw [readTokensFuel] at h
    rcases hr : readToken s with e | r <;> rw [hr] at h
    · exact absurd h (by simp)
    · rcases r with _ | ⟨t, s'⟩
      · simp only [Except.ok.injEq] at h
        rw [← h]
        simp
      · simp only [] at h
        rcases hrec : readTokensFuel fuel s' with e | ts <;> rw [hrec] at h
        · exact absurd h (by simp)
        · simp only [Except.ok.injEq] at h
          subst h
          obtain ⟨h1, h2, h3⟩ := readToken_pos s t s' hr
          have htail := ih s' ts hrec
          rw [← h3] at htail
          simp only [List.flatMap_cons, List.cons_append, List.chain'_cons]
          exact ⟨h1, h2, htail⟩

/-- C5, counterexample: consuming a newline at column 5 leaves the column
at 5 (the source's `read` has no column reset), and whitespace skipped
before a token (via `consume`) does not increment the column either. -/
theorem c5_position_counterexample :
    (lexRead ⟨['\n'], ⟨0, 5⟩⟩).2.pos = ⟨1, 5⟩ ∧ (Position.mk 1 5) ≠ ⟨1, 0⟩ ∧
    (skipSpaces ⟨[' ', 'x'], ⟨0, 0⟩⟩).pos = ⟨0, 0⟩ ∧ (Position.mk 0 0) ≠ ⟨0, 1⟩ :=
  ⟨rfl, by decide, rfl, by decide⟩

/-- C5, amended: a consumed newline increments the line counter and leaves
the column unchanged (no reset); any other character consumed through
`read` increments the column; characters consumed through `consume`
(whitespace skipping and the scan loops) change neither counter — and
consequently the token positions of a tokenizer run are non-decreasing in
line and in column (componentwise, hence also within each line). -/
theorem c5_positions_monotone :
    (∀ p : Position, advancePos p '\n' = ⟨p.line + 1, p.col⟩) ∧
    (∀ (p : Position) (c : Char), c ≠ '\n' → advancePos p c = ⟨p.line, p.col + 1⟩) ∧
    (∀ s : LexState, (skipSpaces s).pos = s.pos) ∧
    (∀ (fuel : Nat) (s : LexState) (toks : List TokenContext),
      readTokensFuel fuel s = .ok toks →
      List.Chain' posLe (toks.flatMap fun t => [t.lpos, t.rpos])) := by
  refine ⟨fun p => rfl, fun p c hc => ?_, fun s => rfl, fun fuel s toks h => ?_⟩
  · unfold advancePos
    rw [if_neg hc]
  · exact (readTokensFuel_chain fuel s toks h).tail

/-- C5, witness: the amended theorem at the concrete run `"x y"` (tokens at
(0,1) and (0,2)) and a concrete non-newline character. -/
theorem c5_positions_monotone_witness :
    advancePos ⟨0, 5⟩ 'x' = ⟨0, 6⟩ ∧
    List.Chain' posLe
      ([⟨.Iden "x", ⟨0, 1⟩, ⟨0, 1⟩⟩,
        (⟨.Iden "y", ⟨0, 2⟩, ⟨0, 2⟩⟩ : TokenContext)].flatMap fun t => [t.lpos, t.rpos]) :=
  ⟨c5_positions_monotone.2.1 ⟨0, 5⟩ 'x' (by decide),
   c5_positions_monotone.2.2.2 4 ⟨"x y".data, ⟨0, 0⟩⟩ _ rfl⟩

/-- A token with dummy positions (positions do not influence parsing). -/
def mkTok (k : Token) : TokenContext := ⟨k, ⟨0, 0⟩, ⟨0, 0⟩⟩

/-- The token encoding of a `(name, named-type)` pair list in which every
pair — the last included — is followed by a comma, so the final comma is a
trailing comma sitting immediately before the terminator. -/
def pairListTokens (ps : List (String × String)) : List TokenContext :=
  ps.flatMap fun p => [mkTok (.Iden p.1), mkTok (.Iden p.2), mkTok .Comma]

/-- `parse_type_pairs` accepts a trailing comma before its terminator: the
terminator is checked (and breaks the loop) before the name check on each
iteration. -/
theorem parseTypePairs_trailing_comma :
    ∀ (term : Token), term = .RParen ∨ term = .RBrace →
      ∀ (ps : List (String × String)) (rest : List TokenContext) (fuel : Nat),
        ps.length < fuel →
        parseTypePairsF term fuel (pairListTokens ps ++ mkTok term :: rest) =
          .ok (ps.map fun p => (p.1, TypeNode.Iden p.2), rest) := by
  intro term hterm ps
  induction ps with
  | nil =>
    intro rest fuel hf
    obtain ⟨f, rfl⟩ : ∃ f, fuel = f + 1 := ⟨fuel - 1, by omega⟩
    rcases hterm with rfl | rfl <;> rfl
  | cons p tl ih =>
    intro rest fuel hf
    obtain ⟨f, rfl⟩ : ∃ f, fuel = f + 1 := ⟨fuel - 1, by omega⟩
    have hstep := ih rest f (by simp at hf ⊢; omega)
    rcases p with ⟨a, b⟩
    simp only [pairListTokens, List.flatMap_cons, List.cons_append, List.append_assoc,
      List.nil_append, mkTok] at hstep ⊢
    rw [parseTypePairsF]
    simp only [parseTypeF]
    rw [hstep]
    simp

/-- C8: in both typed-pair lists (parameter lists closed by `)` and field
lists closed by `}`) a trailing comma immediately before the terminator is
accepted — for every pair list, parsing the comma-terminated encoding
succeeds and yields exactly the pairs — and the claimed source text parses
to the claimed struct and function declarations. -/
theorem c8_trailing_comma_accepted :
    (∀ (term : Token), term = .RParen ∨ term = .RBrace →
      ∀ (ps : List (String × String)) (rest : List TokenContext) (fuel : Nat),
        ps.length < fuel →
        parseTypePairsF term fuel (pairListTokens ps ++ mkTok term :: rest) =
          .ok (ps.map fun p => (p.1, TypeNode.Iden p.2), rest)) ∧
    parseSource "struct Point \x7b x int, y int, \x7d fn f(p Point) -> []Point" =
      .ok [Node.DefStruct "Point" [("x", TypeNode.Iden "int"), ("y", TypeNode.Iden "int")],
           Node.DefFunc "f" [("p", TypeNode.Iden "Point")]
             (some (TypeNode.Array (TypeNode.Iden "Point"))) []] :=
  ⟨parseTypePairs_trailing_comma, rfl⟩

/-- C8, witness: a one-pair parameter list with trailing comma before `)`. -/
theorem c8_trailing_comma_accepted_witness :
    parseTypePairsF .RParen 2
      [mkTok (.Iden "x"), mkTok (.Iden "int"), mkTok .Comma, mkTok .RParen] =
      .ok ([("x", TypeNode.Iden "int")], []) := by
  have h := c8_trailing_comma_accepted.1 .RParen (Or.inl rfl) [("x", "int")] [] 2 (by decide)
  simpa [pairListTokens, mkTok] using h
